import Mathlib

/-!
Verification of the pbxproj patch script.

The program reads a project file, searches its contents for one fixed
literal pattern (`old`), and if found replaces every occurrence with a
fixed replacement (`new`), writes the result back, prints a success
message and exits with status 0.  If the pattern is absent it prints a
diagnostic (a context window around a marker substring, or a message
that the marker is absent), leaves the file untouched and exits with
status 1.  File contents are modelled as `List Char`; the Python string
operations `in`, `str.find` and `str.replace` are modelled by
`containsSub`, `findSub` and `replaceAll` below.
-/

set_option maxRecDepth 100000

namespace FixPbxproj

/-- Single-quote character (ASCII 39), used to build the literals. -/
def sq : Char := Char.ofNat 39

/-- Backtick character (ASCII 96), first and last character of the pattern. -/
def bt : Char := Char.ofNat 96

/-- Middle segment shared verbatim by the pattern and the replacement:
the `\"$NODE_BINARY\" --print \"require(...)...\"` text. -/
def xmid : List Char :=
  "\\\"$NODE_BINARY\\\" --print \\\"require(".data ++ [sq] ++ "path".data
    ++ [sq] ++ ").dirname(require.resolve(".data ++ [sq]
    ++ "react-native/package.json".data ++ [sq] ++ ")) + ".data ++ [sq]
    ++ "/scripts/react-native-xcode.sh".data ++ [sq] ++ "\\\"".data

/-- The pattern searched for (the script's `old`): a backtick, the shared
middle segment, and a closing backtick. -/
def old : List Char := bt :: (xmid ++ [bt])

/-- The replacement text (the script's `new`): assigns the path to a shell
variable and then executes it quoted.  Contains no backtick. -/
def new : List Char :=
  "REACT_NATIVE_XCODE_PATH=$(".data ++ xmid
    ++ ")\\n\\\"$REACT_NATIVE_XCODE_PATH\\\"".data

/-- The marker substring used for the diagnostic context dump. -/
def marker : List Char := "react-native-xcode".data

/-- Message printed on the success path. -/
def successMsg : List Char := "PATCHED successfully".data

/-- Message printed first on the failure path. -/
def dumpMsg : List Char := "Pattern not found, dumping context...".data

/-- Message printed when even the marker is absent. -/
def absentMsg : List Char := "react-native-xcode not found in file at all".data

/-- Boolean test that `pat` is a prefix of `s` (Python match at one position). -/
def startsWith : List Char → List Char → Bool
  | [], _ => true
  | _ :: _, [] => false
  | a :: as, b :: bs => a == b && startsWith as bs

/-- Python `pat in s`: `pat` occurs as a contiguous substring of `s`. -/
def containsSub : List Char → List Char → Bool
  | [], pat => startsWith pat []
  | c :: cs, pat => startsWith pat (c :: cs) || containsSub cs pat

/-- Python `s.find(pat)`: index of the first occurrence of `pat` in `s`,
`none` standing for the sentinel `-1`. -/
def findSub : List Char → List Char → Option Nat
  | [], pat => if startsWith pat [] then some 0 else none
  | c :: cs, pat =>
    if startsWith pat (c :: cs) then some 0
    else (findSub cs pat).map (fun n => n + 1)

/-- Python `s.replace(pat, rep)` for non-empty `pat`: scan left to right,
replacing each (non-overlapping) occurrence of `pat` by `rep`. -/
def replaceAll (pat rep : List Char) : List Char → List Char
  | [] => []
  | c :: cs =>
    if startsWith pat (c :: cs) then
      rep ++ replaceAll pat rep (cs.drop (pat.length - 1))
    else
      c :: replaceAll pat rep cs
termination_by l => l.length
decreasing_by
  · simp only [List.length_drop, List.length_cons]
    omega
  · simp only [List.length_cons]
    omega

/-- Python slice `content[max(0, idx - 150) : idx + 200]` from line 24. -/
def contextWindow (content : List Char) (idx : Nat) : List Char :=
  (content.drop (idx - 150)).take (idx + 200 - (idx - 150))

/-- Observable outcome of one run on given file contents: the contents of
the file afterwards, the process exit code, and the lines printed. -/
structure RunResult where
  fileContents : List Char
  exitCode : Nat
  output : List (List Char)
deriving DecidableEq

/-- Lines 15-27 of the script, as a function of the initial file contents. -/
def run (content : List Char) : RunResult :=
  if containsSub content old then
    { fileContents := replaceAll old new content
      exitCode := 0
      output := [successMsg] }
  else
    match findSub content marker with
    | some idx =>
      { fileContents := content
        exitCode := 1
        output := [dumpMsg, contextWindow content idx] }
    | none =>
      { fileContents := content
        exitCode := 1
        output := [dumpMsg, absentMsg] }

/-- Failure raised by the initial `open(p, 'r')` when the file is missing
or unreadable; the script installs no handler for it. -/
inductive FsError where
  | unreadable
deriving DecidableEq

/-- The whole process: reading the file either fails (propagating the
error, lines 6-7) or yields contents on which the patch logic runs. -/
def runProg : Option (List Char) → Except FsError RunResult
  | none => Except.error FsError.unreadable
  | some content => Except.ok (run content)

/-- Exit status of the process: an uncaught error terminates with a
non-zero status, otherwise the run's exit code. -/
def procExitCode : Except FsError RunResult → Nat
  | Except.error _ => 1
  | Except.ok r => r.exitCode

/-! Bridge lemmas relating the boolean scanners to the prefix / infix
relations on lists. -/

theorem startsWith_iff : ∀ pat s : List Char, startsWith pat s = true ↔ pat <+: s
  | [], s => by simp [startsWith]
  | a :: as, [] => by simp [startsWith]
  | a :: as, b :: bs => by
    simp [startsWith, startsWith_iff as bs, List.cons_prefix_cons]

theorem containsSub_iff : ∀ s pat : List Char, containsSub s pat = true ↔ pat <:+: s
  | [], pat => by simp [containsSub, startsWith_iff]
  | c :: cs, pat => by
    simp [containsSub, startsWith_iff, containsSub_iff cs pat,
      List.infix_cons_iff]

theorem findSub_none_iff : ∀ s pat : List Char,
    findSub s pat = none ↔ containsSub s pat = false
  | [], pat => by
    by_cases h : startsWith pat [] = true <;> simp [findSub, containsSub, h]
  | c :: cs, pat => by
    by_cases h : startsWith pat (c :: cs) = true <;>
      simp [findSub, containsSub, h, findSub_none_iff cs pat]

theorem findSub_some_prefix_drop : ∀ s pat : List Char, ∀ i : Nat,
    findSub s pat = some i → pat <+: s.drop i
  | [], pat, i => by
    by_cases h : startsWith pat [] = true
    · simp only [findSub, h, if_true, Option.some.injEq]
      intro hi
      subst hi
      simpa using (startsWith_iff pat []).mp h
    · simp [findSub, h]
  | c :: cs, pat, i => by
    by_cases h : startsWith pat (c :: cs) = true
    · simp only [findSub, h, if_true, Option.some.injEq]
      intro hi
      subst hi
      simpa using (startsWith_iff pat (c :: cs)).mp h
    · cases hf : findSub cs pat with
      | none => simp [findSub, h, hf]
      | some j =>
        simp only [findSub, h, hf, Option.map_some', Option.some.injEq,
          Bool.false_eq_true, if_false]
        intro hi
        subst hi
        simpa using findSub_some_prefix_drop cs pat j hf

theorem findSub_some_minimal : ∀ s pat : List Char, ∀ i : Nat,
    findSub s pat = some i → ∀ j, j < i → startsWith pat (s.drop j) = false
  | [], pat, i => by
    by_cases h : startsWith pat [] = true
    · simp only [findSub, h, if_true, Option.some.injEq]
      intro hi
      subst hi
      intro j hj
      omega
    · simp [findSub, h]
  | c :: cs, pat, i => by
    by_cases h : startsWith pat (c :: cs) = true
    · simp only [findSub, h, if_true, Option.some.injEq]
      intro hi
      subst hi
      intro j hj
      omega
    · cases hf : findSub cs pat with
      | none => simp [findSub, h, hf]
      | some k =>
        simp only [findSub, h, hf, Option.map_some', Option.some.injEq,
          Bool.false_eq_true, if_false]
        intro hi
        subst hi
        intro j hj
        match j with
        | 0 => simpa using h
        | j' + 1 =>
          have := findSub_some_minimal cs pat k hf j' (by omega)
          simpa using this

/-! Structural facts about the concrete literals.  The pattern starts and
ends with a backtick, while the replacement contains no backtick at all
and is strictly longer than the pattern; these three facts drive the
proof that replacement eliminates every occurrence of the pattern. -/

theorem bt_not_mem_new : bt ∉ new := by decide

theorem oldTail_getLast? : (xmid ++ [bt]).getLast? = some bt :=
  List.getLast?_concat xmid

theorem oldTail_len_lt_new_len : (xmid ++ [bt]).length < new.length := by decide

/-- Last element of a non-empty suffix equals the last element of the list. -/
theorem suffix_getLast? {t l : List Char} (h : t <:+ l) (ht : t ≠ []) :
    t.getLast? = l.getLast? := by
  obtain ⟨u, rfl⟩ := h
  rw [List.getLast?_append]
  obtain ⟨a, ha⟩ := Option.ne_none_iff_exists'.mp
    (fun hn => ht (List.getLast?_eq_none_iff.mp hn))
  rw [ha]
  rfl

/-- An occurrence of the pattern in `a ++ b` cannot start inside a
backtick-free block `a`, because the pattern starts with a backtick. -/
theorem old_infix_append_right : ∀ a b : List Char, bt ∉ a →
    old <:+: a ++ b → old <:+: b
  | [], b, _, h => h
  | x :: a, b, hmem, h => by
    rw [List.cons_append] at h
    rcases List.infix_cons_iff.mp h with hpre | hinf
    · exfalso
      rw [old] at hpre
      rcases List.cons_prefix_cons.mp hpre with ⟨hx, _⟩
      exact hmem (hx ▸ List.mem_cons_self x a)
    · exact old_infix_append_right a b (fun hm => hmem (List.mem_cons_of_mem x hm)) hinf

/-- Transfer lemma: a suffix of the pattern's tail that survives as a
prefix of the replaced text was already a prefix of the original text.
The replacement block can never contribute: it is longer than the
pattern's tail, and any non-empty suffix of the tail ends in a backtick,
which the replacement does not contain. -/
theorem prefix_through_replaceAll (s : List Char) :
    ∀ t : List Char, t <:+ xmid ++ [bt] →
      t <+: replaceAll old new s → t <+: s := by
  induction s using replaceAll.induct old new with
  | case1 =>
    intro t _ hpre
    rw [replaceAll] at hpre
    exact hpre
  | case2 c cs hmatch _ =>
    intro t hsuf hpre
    rcases t with _ | ⟨d, t⟩
    · exact List.nil_prefix
    exfalso
    rw [replaceAll, if_pos hmatch] at hpre
    rcases List.prefix_or_prefix_of_prefix hpre (List.prefix_append new _) with
      hp | hp
    · have hlast : (d :: t).getLast? = some bt :=
        (suffix_getLast? hsuf (List.cons_ne_nil d t)).trans oldTail_getLast?
      exact bt_not_mem_new
        (List.IsPrefix.subset hp (List.mem_of_getLast?_eq_some hlast))
    · have h1 := List.IsPrefix.length_le hp
      have h2 := List.IsSuffix.length_le hsuf
      have h3 := oldTail_len_lt_new_len
      omega
  | case3 c cs hmatch ih =>
    intro t hsuf hpre
    rcases t with _ | ⟨d, t⟩
    · exact List.nil_prefix
    rw [replaceAll, if_neg hmatch] at hpre
    rcases List.cons_prefix_cons.mp hpre with ⟨rfl, hpre'⟩
    have hsuf' : t <:+ xmid ++ [bt] :=
      List.IsSuffix.trans (List.suffix_cons d t) hsuf
    exact List.cons_prefix_cons.mpr ⟨rfl, ih t hsuf' hpre'⟩

/-- Key invariant: the replaced text contains no occurrence of the
pattern.  An occurrence cannot start inside an inserted replacement
block (no backtick there), and an occurrence starting at a copied
character would mean the scanner skipped a match, which it never does. -/
theorem old_not_infix_replaceAll (s : List Char) :
    ¬ old <:+: replaceAll old new s := by
  induction s using replaceAll.induct old new with
  | case1 =>
    rw [replaceAll]
    simp [old]
  | case2 c cs hmatch ih =>
    intro hin
    rw [replaceAll, if_pos hmatch] at hin
    exact ih (old_infix_append_right new _ bt_not_mem_new hin)
  | case3 c cs hmatch ih =>
    intro hin
    rw [replaceAll, if_neg hmatch] at hin
    rcases List.infix_cons_iff.mp hin with hpre | hinf
    · rw [old] at hpre
      rcases List.cons_prefix_cons.mp hpre with ⟨hbc, hpre'⟩
      have htail : xmid ++ [bt] <+: cs :=
        prefix_through_replaceAll cs _ List.suffix_rfl hpre'
      have hsw : startsWith old (c :: cs) = true :=
        (startsWith_iff old (c :: cs)).mpr
          (by rw [old, ← hbc]; exact List.cons_prefix_cons.mpr ⟨rfl, htail⟩)
      exact hmatch hsw
    · exact ih hinf

/-- Boolean form of the key invariant. -/
theorem containsSub_replaceAll_old : ∀ s : List Char,
    containsSub (replaceAll old new s) old = false := by
  intro s
  rw [← Bool.not_eq_true, containsSub_iff]
  exact old_not_infix_replaceAll s

/-- Whenever the pattern occurred, the replaced text contains a full copy
of the replacement string. -/
theorem new_infix_replaceAll (s : List Char) (h : containsSub s old = true) :
    new <:+: replaceAll old new s := by
  induction s using replaceAll.induct old new with
  | case1 => simp [containsSub, old, startsWith] at h
  | case2 c cs hmatch ih =>
    rw [replaceAll, if_pos hmatch]
    exact List.IsPrefix.isInfix (List.prefix_append new _)
  | case3 c cs hmatch ih =>
    rw [replaceAll, if_neg hmatch]
    rw [containsSub, Bool.or_eq_true] at h
    rcases h with h | h
    · exact absurd h hmatch
    · exact List.infix_cons (ih h)

/-! Behaviour of the three branches of the script, and facts about the
diagnostic context window. -/

theorem run_found (content : List Char) (h : containsSub content old = true) :
    run content =
      { fileContents := replaceAll old new content, exitCode := 0,
        output := [successMsg] } := by
  rw [run, if_pos h]

theorem run_notfound_some (content : List Char) (idx : Nat)
    (h : containsSub content old = false)
    (hf : findSub content marker = some idx) :
    run content =
      { fileContents := content, exitCode := 1,
        output := [dumpMsg, contextWindow content idx] } := by
  rw [run, if_neg (by simp [h]), hf]

theorem run_notfound_none (content : List Char)
    (h : containsSub content old = false)
    (hf : findSub content marker = none) :
    run content =
      { fileContents := content, exitCode := 1,
        output := [dumpMsg, absentMsg] } := by
  rw [run, if_neg (by simp [h]), hf]

/-- The context window printed at line 24 contains the marker occurrence
it was centred on. -/
theorem marker_in_contextWindow (content : List Char) (idx : Nat)
    (h : marker <+: content.drop idx) :
    marker <:+: contextWindow content idx := by
  have hwin : (contextWindow content idx).drop (idx - (idx - 150)) =
      (content.drop idx).take 200 := by
    rw [contextWindow, List.drop_take, List.drop_drop]
    have h1 : idx - 150 + (idx - (idx - 150)) = idx := by omega
    have h2 : idx + 200 - (idx - 150) - (idx - (idx - 150)) = 200 := by omega
    rw [h1, h2]
  have hpre : marker <+: (contextWindow content idx).drop (idx - (idx - 150)) := by
    rw [hwin]
    exact List.prefix_take_iff.mpr ⟨h, by decide⟩
  exact List.IsInfix.trans (List.IsPrefix.isInfix hpre)
    (List.IsSuffix.isInfix (List.drop_suffix _ _))

/-- The context window is a bounded slice: at most 150 characters before
the marker and 200 from the marker on. -/
theorem contextWindow_length_le (content : List Char) (idx : Nat) :
    (contextWindow content idx).length ≤ 350 := by
  rw [contextWindow, List.length_take]
  omega

/-! The claims. -/

/-- Claim C1: for every initial file contents containing the pattern, the
run rewrites the file to the original contents with every occurrence of
the pattern replaced by the replacement, prints the success message, and
exits with status zero. -/
theorem claim1_patch_rewrites_and_succeeds (content : List Char)
    (h : containsSub content old = true) :
    (run content).fileContents = replaceAll old new content ∧
    (run content).exitCode = 0 ∧
    (run content).output = [successMsg] := by
  rw [run_found content h]
  exact ⟨rfl, rfl, rfl⟩

theorem claim1_witness :
    containsSub old old = true ∧
    ((run old).fileContents = replaceAll old new old ∧
      (run old).exitCode = 0 ∧
      (run old).output = [successMsg]) :=
  ⟨by decide, claim1_patch_rewrites_and_succeeds old (by decide)⟩

/-- Claim C2: if the contents do not contain the pattern, the run performs
no write: the file contents after the run are identical to before. -/
theorem claim2_absent_no_write (content : List Char)
    (h : containsSub content old = false) :
    (run content).fileContents = content := by
  cases hf : findSub content marker with
  | none => rw [run_notfound_none content h hf]
  | some idx => rw [run_notfound_some content idx h hf]

theorem claim2_witness :
    containsSub [] old = false ∧ (run []).fileContents = [] :=
  ⟨by decide, claim2_absent_no_write [] (by decide)⟩

/-- Claim C3: the exit code is zero exactly when the pattern was found in
the contents, and non-zero exactly when it was not. -/
theorem claim3_exit_zero_iff_found (content : List Char) :
    ((run content).exitCode = 0 ↔ containsSub content old = true) ∧
    ((run content).exitCode ≠ 0 ↔ containsSub content old = false) := by
  cases h : containsSub content old with
  | true => simp [run_found content h]
  | false =>
    cases hf : findSub content marker with
    | none => simp [run_notfound_none content h hf]
    | some idx => simp [run_notfound_some content idx h hf]

/-- Claim C4: after every successful run the file contents no longer
contain the pattern.  The spec assumes the pattern does not reappear as a
substring of the replacement; that assumption holds for these constants,
so the statement is proved outright. -/
theorem claim4_no_pattern_after_success (content : List Char)
    (h : containsSub content old = true) :
    containsSub ((run content).fileContents) old = false := by
  rw [run_found content h]
  exact containsSub_replaceAll_old content

theorem claim4_witness :
    containsSub old old = true ∧
    containsSub ((run old).fileContents) old = false :=
  ⟨by decide, claim4_no_pattern_after_success old (by decide)⟩

/-- Claim C5: running the tool again on the contents produced by a prior
successful run leaves the file byte-for-byte unchanged and exits with the
failure status instead of modifying it. -/
theorem claim5_second_run_identity (content : List Char)
    (h : containsSub content old = true) :
    (run ((run content).fileContents)).fileContents =
      (run content).fileContents ∧
    (run ((run content).fileContents)).exitCode = 1 := by
  rw [run_found content h]
  have hold : containsSub (replaceAll old new content) old = false :=
    containsSub_replaceAll_old content
  cases hf : findSub (replaceAll old new content) marker with
  | none => rw [run_notfound_none _ hold hf]; exact ⟨rfl, rfl⟩
  | some idx => rw [run_notfound_some _ idx hold hf]; exact ⟨rfl, rfl⟩

theorem claim5_witness :
    containsSub old old = true ∧
    ((run ((run old).fileContents)).fileContents = (run old).fileContents ∧
      (run ((run old).fileContents)).exitCode = 1) :=
  ⟨by decide, claim5_second_run_identity old (by decide)⟩

/-- Claim C6: if the contents contain the marker but not the pattern, the
run prints the bounded context window around the marker's first
occurrence (the window contains that occurrence and spans at most 150
characters before it and 200 from it on), leaves the file unchanged, and
exits with the failure status. -/
theorem claim6_context_dump (content : List Char)
    (h1 : containsSub content old = false)
    (h2 : containsSub content marker = true) :
    ∃ idx, findSub content marker = some idx ∧
      (run content).output = [dumpMsg, contextWindow content idx] ∧
      (run content).exitCode = 1 ∧
      (run content).fileContents = content ∧
      marker <:+: contextWindow content idx ∧
      (contextWindow content idx).length ≤ 350 ∧
      (∀ j, j < idx → startsWith marker (content.drop j) = false) := by
  cases hf : findSub content marker with
  | none =>
    have hn := (findSub_none_iff content marker).mp hf
    rw [hn] at h2
    exact Bool.noConfusion h2
  | some idx =>
    refine ⟨idx, rfl, ?_, ?_, ?_, ?_, ?_, ?_⟩
    · rw [run_notfound_some content idx h1 hf]
    · rw [run_notfound_some content idx h1 hf]
    · rw [run_notfound_some content idx h1 hf]
    · exact marker_in_contextWindow content idx
        (findSub_some_prefix_drop content marker idx hf)
    · exact contextWindow_length_le content idx
    · exact findSub_some_minimal content marker idx hf

theorem claim6_witness :
    containsSub marker old = false ∧ containsSub marker marker = true ∧
    ∃ idx, findSub marker marker = some idx ∧
      (run marker).output = [dumpMsg, contextWindow marker idx] ∧
      (run marker).exitCode = 1 ∧
      (run marker).fileContents = marker ∧
      marker <:+: contextWindow marker idx ∧
      (contextWindow marker idx).length ≤ 350 ∧
      (∀ j, j < idx → startsWith marker (marker.drop j) = false) :=
  ⟨by decide, by decide, claim6_context_dump marker (by decide) (by decide)⟩

/-- Claim C7: if the contents contain neither the pattern nor the marker,
the run prints the message that the marker is absent, does not modify the
file, and exits with the failure status. -/
theorem claim7_marker_absent_message (content : List Char)
    (h1 : containsSub content old = false)
    (h2 : containsSub content marker = false) :
    (run content).output = [dumpMsg, absentMsg] ∧
    (run content).fileContents = content ∧
    (run content).exitCode = 1 := by
  have hf : findSub content marker = none :=
    (findSub_none_iff content marker).mpr h2
  rw [run_notfound_none content h1 hf]
  exact ⟨rfl, rfl, rfl⟩

theorem claim7_witness :
    containsSub [] old = false ∧ containsSub [] marker = false ∧
    ((run []).output = [dumpMsg, absentMsg] ∧
      (run []).fileContents = [] ∧
      (run []).exitCode = 1) :=
  ⟨by decide, by decide, claim7_marker_absent_message [] (by decide) (by decide)⟩

/-- Claim C8: when the target file cannot be read, the error is not
caught: the process terminates with the propagated error and a non-zero
status, and never reaches the success path. -/
theorem claim8_unreadable_propagates :
    runProg none = Except.error FsError.unreadable ∧
    procExitCode (runProg none) ≠ 0 :=
  ⟨rfl, by simp [runProg, procExitCode]⟩

/-- Claim C9: the replacement constant does not contain the pattern as a
substring, and the marker is a substring of the pattern, so the spec's
assumption holds for this program. -/
theorem claim9_literal_constants :
    containsSub new old = false ∧ containsSub old marker = true :=
  ⟨by decide, by decide⟩

/-- Claim C10: the replacement contains the marker, so on any contents
produced by a successful run a second run finds the marker and prints the
context-window diagnostic, never the marker-absent message. -/
theorem claim10_repatch_finds_marker (content : List Char)
    (h : containsSub content old = true) :
    containsSub new marker = true ∧
    ∃ idx, findSub ((run content).fileContents) marker = some idx ∧
      run ((run content).fileContents) =
        { fileContents := (run content).fileContents, exitCode := 1,
          output := [dumpMsg,
            contextWindow ((run content).fileContents) idx] } := by
  refine ⟨by decide, ?_⟩
  have hc1 : (run content).fileContents = replaceAll old new content := by
    rw [run_found content h]
  rw [hc1]
  have hmarker : marker <:+: replaceAll old new content :=
    List.IsInfix.trans ((containsSub_iff new marker).mp (by decide))
      (new_infix_replaceAll content h)
  have hcont : containsSub (replaceAll old new content) marker = true :=
    (containsSub_iff _ _).mpr hmarker
  have hold : containsSub (replaceAll old new content) old = false :=
    containsSub_replaceAll_old content
  cases hf : findSub (replaceAll old new content) marker with
  | none =>
    have hn := (findSub_none_iff _ _).mp hf
    rw [hn] at hcont
    exact Bool.noConfusion hcont
  | some idx =>
    exact ⟨idx, rfl, run_notfound_some _ idx hold hf⟩

theorem claim10_witness :
    containsSub old old = true ∧
    (containsSub new marker = true ∧
      ∃ idx, findSub ((run old).fileContents) marker = some idx ∧
        run ((run old).fileContents) =
          { fileContents := (run old).fileContents, exitCode := 1,
            output := [dumpMsg,
              contextWindow ((run old).fileContents) idx] }) :=
  ⟨by decide, claim10_repatch_finds_marker old (by decide)⟩

end FixPbxproj
